import Mathlib

/-!
Verification development for the EDAM concept-mapping core
(`edam_mcp.ontology.loader` / `.matcher` / `.suggester`,
`edam_mcp.utils.text_processing` / `.similarity`,
`edam_mcp.models.responses`).

Shallow embedding conventions:
* Python strings are lists of characters (`Str`); `str.lower()` is the
  per-character ASCII lowering of `Char.toLower` (EDAM labels and the
  inputs of interest are ASCII), `\w` is modelled as ASCII alphanumeric
  or underscore, `\s` as the ASCII whitespace class.
* Python `dict` is an insertion-ordered association list with unique
  keys (the loader keys concepts by URI); `dict.get` is `pyDictGet`.
* Python exceptions are `Except PyErr _`; pydantic field validation
  (`confidence` constrained to `[0, 1]` in `models/responses.py`) is the
  checked constructor `mk_concept_match` / `mk_suggested_concept`.
* Python floats are exact rationals (`ℚ`); `numpy`'s float square root
  inside `np.linalg.norm` is external numeric code and is supplied as an
  environment function (`npSqrt`), never interpreted by any theorem.
* `while` loops are fuel-indexed recursions returning `Option`; `none`
  means the allotted fuel was exhausted before the loop finished, so a
  loop that never terminates returns `none` for every fuel.
* `list(set(...))` (CPython leaves the order unspecified) is
  determinized as first-occurrence deduplication; no settled claim
  depends on the order of those two lists.
-/

/-- A Python string, as a list of characters. -/
abbrev Str := List Char

/-- The Python exceptions that the modelled code can raise. -/
inductive PyErr where
  /-- Python `AttributeError`, e.g. calling `.encode` on `None`. -/
  | attributeError
  /-- Python `TypeError`, e.g. subscripting `None`. -/
  | typeError
  /-- pydantic `ValidationError` (field constraint violated). -/
  | validationError
  /-- Python `NameError`, an unresolved global name. -/
  | nameError
  /-- Python `ValueError`, raised explicitly by the code. -/
  | valueError
deriving DecidableEq, Repr

instance {ε α : Type} [DecidableEq ε] [DecidableEq α] : DecidableEq (Except ε α) :=
  fun x y =>
    match x, y with
    | Except.ok a, Except.ok b =>
      if h : a = b then isTrue (by rw [h]) else isFalse (by intro hc; cases hc; exact h rfl)
    | Except.error a, Except.error b =>
      if h : a = b then isTrue (by rw [h]) else isFalse (by intro hc; cases hc; exact h rfl)
    | Except.ok _, Except.error _ => isFalse (by intro h; cases h)
    | Except.error _, Except.ok _ => isFalse (by intro h; cases h)

/-- The apostrophe character (used inside f-string literals of the source). -/
def apos : Char := Char.ofNat 39

/-- Python's `\s` class (ASCII part): space, tab, newline, carriage return,
vertical tab, form feed. -/
def pyIsSpace (c : Char) : Bool :=
  c = ' ' || c = '\t' || c = '\n' || c = '\r' || c = Char.ofNat 11 || c = Char.ofNat 12

/-- ASCII letter or digit (the regex class `[a-zA-Z0-9]`). -/
def isAsciiAlphanum (c : Char) : Bool :=
  (('a' ≤ c && c ≤ 'z') || ('A' ≤ c && c ≤ 'Z') || ('0' ≤ c && c ≤ '9'))

/-- The regex class `\w`, modelled as ASCII alphanumeric or underscore. -/
def isWordChar (c : Char) : Bool :=
  isAsciiAlphanum c || c = '_'

/-- Embedding of `str.lower()`, per character. -/
def pyLower (s : Str) : Str := s.map Char.toLower

/-- Replace every maximal run of whitespace by the single character `rep`
(the regex substitution `re.sub(r'\s+', rep, s)`).  `inRun` records whether
the previous character belonged to a whitespace run. -/
def wsRunsToAux (rep : Char) (inRun : Bool) : Str → Str
  | [] => []
  | c :: cs =>
    if pyIsSpace c then
      if inRun then wsRunsToAux rep true cs else rep :: wsRunsToAux rep true cs
    else c :: wsRunsToAux rep false cs

/-- Embedding of `re.sub(r'\s+', rep, s)`. -/
def wsRunsTo (rep : Char) (s : Str) : Str := wsRunsToAux rep false s

/-- Remove the maximal trailing run of whitespace. -/
def dropTrailingWs : Str → Str
  | [] => []
  | c :: cs =>
    let r := dropTrailingWs cs
    if r = [] && pyIsSpace c then [] else c :: r

/-- Python `str.strip()`: drop leading and trailing whitespace. -/
def pyStrip (s : Str) : Str := dropTrailingWs (s.dropWhile pyIsSpace)

/-- The characters the regex class `[^\w\s\-_]` keeps untouched. -/
def keepB (c : Char) : Bool :=
  isWordChar c || pyIsSpace c || c = '-' || c = '_'

/-- Embedding of `edam_mcp.utils.text_processing.preprocess_text`:
empty guard, lowercase, `re.sub(r'[^\w\s\-_]', ' ', ...)`,
`re.sub(r'\s+', ' ', ...)`, `strip()`. -/
def preprocess_text (text : Str) : Str :=
  if text = [] then []
  else
    let t1 := pyLower text
    let t2 := t1.map (fun c => if keepB c then c else ' ')
    let t3 := wsRunsTo ' ' t2
    pyStrip t3

/-- The first character, if any, is not whitespace. -/
def headNoWs (l : Str) : Bool :=
  match l.head? with
  | none => true
  | some c => !pyIsSpace c

/-- The last character, if any, is not whitespace. -/
def lastNoWs (l : Str) : Bool :=
  match l.getLast? with
  | none => true
  | some c => !pyIsSpace c

/-- No two adjacent whitespace characters. -/
def noAdjWs : Str → Bool
  | [] => true
  | a :: t => (if pyIsSpace a then headNoWs t else true) && noAdjWs t

/-- Strings fixed by every step of `preprocess_text`: every character is
lowering-fixed, kept by the punctuation substitution and (when
whitespace) a plain space; whitespace is never adjacent, leading or
trailing. -/
def goodStr (l : Str) : Prop :=
  (∀ c ∈ l, Char.toLower c = c ∧ keepB c = true ∧ (pyIsSpace c = true → c = ' ')) ∧
    noAdjWs l = true ∧ headNoWs l = true ∧ lastNoWs l = true

/-- Python `str.split()` (no argument): split on runs of whitespace,
discarding empty fields.  `cur` holds the current word, reversed. -/
def pySplitWsAux (cur : Str) : Str → List Str
  | [] => if cur = [] then [] else [cur.reverse]
  | c :: cs =>
    if pyIsSpace c then
      if cur = [] then pySplitWsAux [] cs else cur.reverse :: pySplitWsAux [] cs
    else pySplitWsAux (c :: cur) cs

/-- Python `str.split()` with no separator argument. -/
def pySplitWs (s : Str) : List Str := pySplitWsAux [] s

/-- Embedding of `" ".join(parts)`. -/
def joinSp (parts : List Str) : Str := List.intercalate [' '] parts

/-- Python `str.title()`: the first letter of every letter-run is upper-cased,
the following letters are lower-cased.  `prevAlpha` records whether the
previous character was a letter. -/
def pyTitleAux (prevAlpha : Bool) : Str → Str
  | [] => []
  | c :: cs =>
    if c.isAlpha then
      (if prevAlpha then c.toLower else c.toUpper) :: pyTitleAux true cs
    else c :: pyTitleAux false cs

/-- Python `str.title()`. -/
def pyTitle (s : Str) : Str := pyTitleAux false s

/-- Tests whether `needle` is a leading segment of `hay` (Python `str.startswith`). -/
def leadsWith : Str → Str → Bool
  | [], _ => true
  | _ :: _, [] => false
  | a :: as, b :: bs => a = b && leadsWith as bs

/-- Python substring containment `needle in hay`. -/
def strContains (hay needle : Str) : Bool :=
  match hay with
  | [] => needle.isEmpty
  | c :: t => leadsWith needle (c :: t) || strContains t needle

/-- A concept record as built by `OntologyLoader._extract_concept_data`
(the `uri` key of the dict is the association-list key and is not
duplicated here). -/
structure EdamConcept where
  label : Str
  definition : Option Str
  synonyms : List Str
  ctype : Str
  parents : List Str
  children : List Str
deriving DecidableEq, Repr

/-- The loader's `self.concepts` dict: URI-keyed, insertion ordered. -/
abbrev Graph := List (Str × EdamConcept)

/-- Embedding of `models.responses.ConceptMatch` (pydantic model). -/
structure ConceptMatch where
  concept_uri : Str
  concept_label : Str
  confidence : ℚ
  concept_type : Str
  definition : Option Str
  synonyms : List Str
deriving DecidableEq, Repr

/-- Embedding of `models.responses.SuggestedConcept` (pydantic model). -/
structure SuggestedConcept where
  suggested_label : Str
  suggested_uri : Str
  concept_type : Str
  definition : Str
  parent_concept : Option Str
  rationale : Str
  confidence : ℚ
deriving DecidableEq, Repr

/-- Embedding of `dict.get(k)`: first binding of `k` (the loader builds unique keys). -/
def pyDictGet (g : List (Str × EdamConcept)) (k : Str) : Option EdamConcept :=
  match g with
  | [] => none
  | (k₂, v) :: t => if k₂ = k then some v else pyDictGet t k

/-- Embedding of `d[k] = v` on an insertion-ordered dict: update in place if the key
exists, else append. -/
def dictInsert (m : List (Str × List ℚ)) (k : Str) (v : List ℚ) : List (Str × List ℚ) :=
  if m.any (fun p => p.1 = k) then m.map (fun p => if p.1 = k then (k, v) else p)
  else m ++ [(k, v)]

/-- Embedding of `list(set(xs))` for string lists, determinized as first-occurrence
deduplication (`seen` is the set of already-emitted strings). -/
def pyListSetAux (seen : List Str) : List Str → List Str
  | [] => []
  | x :: t => if x ∈ seen then pyListSetAux seen t else x :: pyListSetAux (x :: seen) t

/-- Embedding of `list(set(xs))`, determinized (see module header). -/
def pyListSet (l : List Str) : List Str := pyListSetAux [] l

/-- Constructing a `ConceptMatch`: pydantic validates
`confidence ∈ [0, 1]` (`models/responses.py`) and raises otherwise. -/
def mk_concept_match (uri : Str) (c : EdamConcept) (conf : ℚ) : Except PyErr ConceptMatch :=
  if 0 ≤ conf ∧ conf ≤ 1 then
    Except.ok ⟨uri, c.label, conf, c.ctype, c.definition, c.synonyms⟩
  else Except.error PyErr.validationError

/-- Constructing a `SuggestedConcept`: pydantic validates
`confidence ∈ [0, 1]` and raises otherwise. -/
def mk_suggested_concept (label uri ty definition : Str) (parent : Option Str)
    (rationale : Str) (conf : ℚ) : Except PyErr SuggestedConcept :=
  if 0 ≤ conf ∧ conf ≤ 1 then
    Except.ok ⟨label, uri, ty, definition, parent, rationale, conf⟩
  else Except.error PyErr.validationError

/-- Stable descending insertion: `x` is placed before the first element
whose key is strictly smaller, hence after all earlier elements with an
equal key — the unique output of any stable descending sort. -/
def insertDesc {α : Type} (key : α → ℚ) (x : α) : List α → List α
  | [] => [x]
  | y :: ys => if key x < key y then y :: insertDesc key x ys else x :: y :: ys

/-- Python's stable `list.sort(key=…, reverse=True)`.  Python's sort is
stable, and a stable descending sort has a unique output, so this
insertion sort computes the same list. -/
def pySortDescBy {α : Type} (key : α → ℚ) : List α → List α
  | [] => []
  | x :: xs => insertDesc key x (pySortDescBy key xs)

/-!
## Loader (`edam_mcp/ontology/loader.py`)

`loader.py` imports only `logging`, `rdflib` names and `settings`
(lines 1–8); the names `os`, `time` and `pickle` used by
`_cache_paths`, `_is_cache_fresh`, `_load_cache` and `_save_cache` are
never imported, so evaluating any of these methods raises `NameError`
at run time.  `load_ontology` wraps its whole body in
`try: ... except Exception: return False`.
-/

/-- Loader state: the `self.concepts` dict (the only state the settled
claims observe). -/
structure LoaderState where
  concepts : Graph
deriving DecidableEq, Repr

/-- Embedding of `OntologyLoader._cache_paths` — its first statement is
`os.makedirs(self.cache_dir, exist_ok=True)`, and `os` is an unresolved
global name in `loader.py`, so the call raises `NameError`. -/
def cache_paths : Except PyErr (Str × Str × Str) := Except.error PyErr.nameError

/-- Embedding of `OntologyLoader._is_cache_fresh` — calls `_cache_paths` first (which
raises `NameError`); even past that, `os.path.exists` / `time.time` are
equally unresolved. -/
def is_cache_fresh : Except PyErr Bool :=
  match cache_paths with
  | Except.error e => Except.error e
  | Except.ok _ => Except.error PyErr.nameError

/-- Embedding of `OntologyLoader._load_cache` — `_cache_paths` raises before
`pickle.load` (also unresolved) could. -/
def load_cache : Except PyErr LoaderState :=
  match cache_paths with
  | Except.error e => Except.error e
  | Except.ok _ => Except.error PyErr.nameError

/-- Embedding of `OntologyLoader._save_cache` — `_cache_paths` raises before
`pickle.dump` (also unresolved) could. -/
def save_cache : Except PyErr Unit :=
  match cache_paths with
  | Except.error e => Except.error e
  | Except.ok _ => Except.error PyErr.nameError

/-- Embedding of `OntologyLoader.load_ontology`.  The outcome of fetching and parsing
the configured source and extracting its concepts (`graph.parse` +
`_extract_concepts`, external rdflib work) is supplied as `fetched`:
`Except.ok g` is a successfully parsed document yielding concepts `g`,
`Except.error _` an unreachable URL / malformed content / timeout.  Any
exception in the `try` body is caught and turned into `False`. -/
def load_ontology (st : LoaderState) (fetched : Except PyErr Graph) :
    Bool × LoaderState :=
  match is_cache_fresh with
  | Except.error _ => (false, st)
  | Except.ok fresh =>
    if fresh then
      match load_cache with
      | Except.error _ => (false, st)
      | Except.ok st₂ => (true, st₂)
    else
      match fetched with
      | Except.error _ => (false, st)
      | Except.ok g =>
        let st₂ : LoaderState := ⟨g⟩
        match save_cache with
        | Except.error _ => (false, st₂)
        | Except.ok _ => (true, st₂)

/-- The body of `OntologyLoader.get_concept_hierarchy`'s `while` loop,
with explicit fuel: follow `parents[0]` from `current`, prepending each
label (`hierarchy.insert(0, label)`), stopping when a concept has no
parents, the current URI is not loaded (`break`), or `current_uri` is
falsy.  `none` means the fuel ran out before the loop finished. -/
def hierarchy_loop (g : Graph) : Nat → Option Str → List Str → Option (List Str)
  | 0, _, _ => none
  | Nat.succ fuel, cur, acc =>
    match cur with
    | none => some acc
    | some u =>
      if u = [] then some acc
      else
        match pyDictGet g u with
        | none => some acc
        | some c =>
          hierarchy_loop g fuel
            (match c.parents with | [] => none | p :: _ => some p)
            (c.label :: acc)

/-- Embedding of `OntologyLoader.get_concept_hierarchy(concept_uri)`, fuel-indexed. -/
def get_concept_hierarchy (g : Graph) (concept_uri : Str) (fuel : Nat) :
    Option (List Str) :=
  hierarchy_loop g fuel (some concept_uri) []

/-!
## Similarity helpers (`edam_mcp/utils/similarity.py`)
-/

/-- Embedding of `utils.similarity.calculate_weighted_similarity`: empty-list guard
returning `0.0`, explicit `ValueError` on length mismatch, `0.0` on zero
total weight, else the weighted average with normalized weights
(`zip(..., strict=False)` truncates, irrelevant once lengths match). -/
def calculate_weighted_similarity (similarities weights : List ℚ) : Except PyErr ℚ :=
  if similarities.isEmpty || weights.isEmpty then Except.ok 0
  else if similarities.length ≠ weights.length then Except.error PyErr.valueError
  else
    let total := weights.sum
    if total = 0 then Except.ok 0
    else
      let normalized := weights.map (fun w => w / total)
      Except.ok (List.zipWith (fun s w => s * w) similarities normalized).sum

/-!
## Matcher (`edam_mcp/ontology/matcher.py`)
-/

/-- State of the `ConceptMatcher`.  `capability` models the importability of
`sentence_transformers` together with the encoder the constructed
`SentenceTransformer(settings.embedding_model)` would provide: `none`
means `import sentence_transformers` raises `ImportError` (logged and
swallowed by `_build_embeddings`).  `npSqrt` is the opaque float square
root used by `np.linalg.norm` (see module header). -/
structure MatcherState where
  concepts : Graph
  capability : Option (Str → List ℚ)
  embeddingModel : Option (Str → List ℚ)
  conceptEmbeddings : List (Str × List ℚ)
  npSqrt : ℚ → ℚ

/-- The text embedded for a concept in `_build_embeddings`:
`label`, the definition when truthy, and all synonyms, joined by single
spaces, then `preprocess_text`. -/
def concept_text (c : EdamConcept) : Str :=
  let defPart : List Str :=
    match c.definition with
    | some d => if d = [] then [] else [d]
    | none => []
  preprocess_text (joinSp ([c.label] ++ defPart ++ c.synonyms))

/-- Embedding of `ConceptMatcher._build_embeddings`: on `ImportError` log and return
with the state unchanged (in particular `embedding_model` stays `None`);
otherwise construct the model if absent and fill the embedding dict. -/
def build_embeddings (st : MatcherState) : MatcherState :=
  match st.capability with
  | none => st
  | some enc =>
    let model := st.embeddingModel.getD enc
    let embs := st.concepts.foldl
      (fun m p => dictInsert m p.1 (model (concept_text p.2))) st.conceptEmbeddings
    { st with embeddingModel := some model, conceptEmbeddings := embs }

/-- Embedding of `ConceptMatcher._cosine_similarity`: `dot / (‖a‖·‖b‖)`, `0.0` when
either norm is zero.  `np.linalg.norm` is `sqrtF` applied to the sum of
squares, with `sqrtF` the environment's opaque float square root. -/
def cosine_similarity (sqrtF : ℚ → ℚ) (v1 v2 : List ℚ) : ℚ :=
  let dp := (List.zipWith (fun a b => a * b) v1 v2).sum
  let n1 := sqrtF ((v1.map (fun x => x * x)).sum)
  let n2 := sqrtF ((v2.map (fun x => x * x)).sum)
  if n1 = 0 ∨ n2 = 0 then 0 else dp / (n1 * n2)

/-- Embedding of `ConceptMatcher._calculate_similarities`: cosine similarity against
every concept embedding, sorted descending. -/
def calculate_similarities (st : MatcherState) (de : List ℚ) : List (Str × ℚ) :=
  pySortDescBy (fun p => p.2)
    (st.conceptEmbeddings.map (fun p => (p.1, cosine_similarity st.npSqrt de p.2)))

/-- The result-building loop of `match_concepts`: keep similarities at or
above `min_confidence`, look the concept up, and construct a (pydantic
validated) `ConceptMatch` with the similarity as confidence. -/
def build_matches (g : Graph) (minConfidence : ℚ) :
    List (Str × ℚ) → Except PyErr (List ConceptMatch)
  | [] => Except.ok []
  | (u, s) :: rest =>
    if minConfidence ≤ s then
      match pyDictGet g u with
      | some c =>
        match mk_concept_match u c s with
        | Except.error e => Except.error e
        | Except.ok m =>
          match build_matches g minConfidence rest with
          | Except.error e => Except.error e
          | Except.ok ms => Except.ok (m :: ms)
      | none => build_matches g minConfidence rest
    else build_matches g minConfidence rest

/-- Embedding of `ConceptMatcher.match_concepts(description, context, max_results,
min_confidence)`: lazily build embeddings when the embedding dict is
empty, preprocess the query (appending the preprocessed context when
truthy), encode it with `self.embedding_model` — an `AttributeError`
when that is still `None` — then filter, sort descending by confidence
and truncate. -/
def match_concepts (st : MatcherState) (description : Str) (context : Option Str)
    (max_results : Nat) (min_confidence : ℚ) : Except PyErr (List ConceptMatch) :=
  let st₁ := if st.conceptEmbeddings.isEmpty then build_embeddings st else st
  let pd₀ := preprocess_text description
  let pd :=
    match context with
    | some c => if c = [] then pd₀ else pd₀ ++ (' ' :: preprocess_text c)
    | none => pd₀
  match st₁.embeddingModel with
  | none => Except.error PyErr.attributeError
  | some model =>
    let de := model pd
    let sims := calculate_similarities st₁ de
    match build_matches st₁.concepts min_confidence sims with
    | Except.error e => Except.error e
    | Except.ok ms =>
      Except.ok ((pySortDescBy (fun m => m.confidence) ms).take max_results)

/-- The per-concept test of `find_exact_matches`: the label branch and
the synonym branch construct an identical `ConceptMatch` (confidence
`1.0`, which trivially passes the pydantic range check), and `continue`
/ `break` make each concept contribute at most one match. -/
def exact_match_for (dl : Str) (uri : Str) (c : EdamConcept) : Option ConceptMatch :=
  if dl = pyLower c.label then
    some ⟨uri, c.label, 1, c.ctype, c.definition, c.synonyms⟩
  else if c.synonyms.any (fun s => decide (dl = pyLower s)) then
    some ⟨uri, c.label, 1, c.ctype, c.definition, c.synonyms⟩
  else none

/-- Embedding of `ConceptMatcher.find_exact_matches(description)`: case-insensitive
equality of the lowered input against each concept's label or any
synonym, in graph iteration order. -/
def find_exact_matches (g : Graph) (description : Str) : List ConceptMatch :=
  let dl := pyLower description
  g.filterMap (fun p => exact_match_for dl p.1 p.2)

/-- The `while queue:` loop of `get_concept_neighbors`, fuel-indexed and
instrumented: each emitted match is paired with the traversal distance
(the code's `distance` variable) at which its node was first dequeued.
Faithful to the source order: the visited / `distance > max_distance`
test at dequeue, `visited.add`, `get_concept`, the guarded emission
(`if concept and distance > 0`, pydantic-validated construction with
confidence `1.0 - distance * 0.2`), then the expansion
`if distance < max_distance`, which reads `concept["parents"]` — a
`TypeError` when `get_concept` returned `None`. -/
def neighbors_loop (g : Graph) (maxD : Nat) :
    Nat → List Str → List (Str × Nat) → List (ConceptMatch × Nat) →
    Option (Except PyErr (List (ConceptMatch × Nat)))
  | 0, _, _, _ => none
  | Nat.succ _, _, [], acc => some (Except.ok acc)
  | Nat.succ fuel, visited, (u, d) :: rest, acc =>
    if u ∈ visited ∨ maxD < d then neighbors_loop g maxD fuel visited rest acc
    else
      match pyDictGet g u with
      | none =>
        if d < maxD then some (Except.error PyErr.typeError)
        else neighbors_loop g maxD fuel (u :: visited) rest acc
      | some c =>
        let conf : ℚ := 1 - (d : ℚ) * (1 / 5)
        let emitted : Except PyErr (List (ConceptMatch × Nat)) :=
          if 0 < d then
            match mk_concept_match u c conf with
            | Except.error e => Except.error e
            | Except.ok m => Except.ok (acc ++ [(m, d)])
          else Except.ok acc
        match emitted with
        | Except.error e => some (Except.error e)
        | Except.ok acc₂ =>
          let queue₂ :=
            if d < maxD then
              rest ++ c.parents.map (fun p => (p, d + 1))
                   ++ c.children.map (fun p => (p, d + 1))
            else rest
          neighbors_loop g maxD fuel (u :: visited) queue₂ acc₂

/-- Version of `get_concept_neighbors` instrumented with the traversal distance of
each returned match. -/
def get_concept_neighbors_dist (g : Graph) (concept_uri : Str) (maxD fuel : Nat) :
    Option (Except PyErr (List (ConceptMatch × Nat))) :=
  neighbors_loop g maxD fuel [] [(concept_uri, 0)] []

/-- Embedding of `ConceptMatcher.get_concept_neighbors(concept_uri, max_distance)`,
fuel-indexed (`none` = fuel exhausted, never reached by the settled
claims' runs). -/
def get_concept_neighbors (g : Graph) (concept_uri : Str) (maxD fuel : Nat) :
    Option (Except PyErr (List ConceptMatch)) :=
  (get_concept_neighbors_dist g concept_uri maxD fuel).map
    (fun r => r.map (fun l => l.map Prod.fst))

/-!
## Suggester (`edam_mcp/ontology/suggester.py`)
-/

/-- Embedding of `_infer_concept_type`'s `operation_keywords`. -/
def operation_keywords : List Str :=
  [("analyze").toList, ("process").toList, ("filter").toList, ("transform").toList,
   ("convert").toList, ("calculate").toList, ("compute").toList, ("generate").toList,
   ("create").toList, ("extract").toList, ("merge").toList, ("split").toList,
   ("align").toList, ("assemble").toList, ("annotate").toList, ("predict").toList,
   ("classify").toList, ("cluster").toList]

/-- Embedding of `_infer_concept_type`'s `data_keywords`. -/
def data_keywords : List Str :=
  [("sequence").toList, ("alignment").toList, ("matrix").toList, ("table").toList,
   ("list").toList, ("tree").toList, ("graph").toList, ("network").toList,
   ("profile").toList, ("signature").toList, ("pattern").toList, ("motif").toList,
   ("dataset").toList, ("collection").toList, ("set").toList, ("file").toList,
   ("record").toList]

/-- Embedding of `_infer_concept_type`'s `format_keywords`. -/
def format_keywords : List Str :=
  [("format").toList, ("file").toList, ("extension").toList, ("encoding").toList,
   ("structure").toList, ("fasta").toList, ("fastq").toList, ("sam").toList,
   ("bam").toList, ("vcf").toList, ("bed").toList, ("gff").toList, ("gtf").toList,
   ("csv").toList, ("tsv").toList, ("json").toList, ("xml").toList, ("yaml").toList]

/-- Embedding of `_infer_concept_type`'s `topic_keywords`. -/
def topic_keywords : List Str :=
  [("biology").toList, ("genomics").toList, ("proteomics").toList,
   ("metabolomics").toList, ("transcriptomics").toList, ("phylogenetics").toList,
   ("evolution").toList, ("disease").toList, ("cancer").toList, ("drug").toList,
   ("protein").toList, ("gene").toList, ("dna").toList, ("rna").toList,
   ("sequence").toList, ("alignment").toList, ("annotation").toList]

/-- Embedding of `sum(1 for keyword in ks if keyword in description_lower)`. -/
def count_keywords (ks : List Str) (dl : Str) : Nat :=
  (ks.filter (fun k => strContains dl k)).length

/-- Python `max(scores, key=scores.get)` over the insertion-ordered
`scores` dict: fold keeping the first key whose value is maximal
(replace only on a strictly greater value). -/
def pyMaxKeyAux (best : Str × Nat) : List (Str × Nat) → Str
  | [] => best.1
  | (k, v) :: t => if best.2 < v then pyMaxKeyAux (k, v) t else pyMaxKeyAux best t

/-- Embedding of `ConceptSuggester._infer_concept_type(description)`: count keyword
substring hits in the lowered description per type, then
`max(scores, key=scores.get)` over the dict
`{Operation, Data, Format, Topic}` in insertion order. -/
def infer_concept_type (description : Str) : Str :=
  let dl := pyLower description
  let operation_score := count_keywords operation_keywords dl
  let data_score := count_keywords data_keywords dl
  let format_score := count_keywords format_keywords dl
  let topic_score := count_keywords topic_keywords dl
  pyMaxKeyAux (("Operation").toList, operation_score)
    [(("Data").toList, data_score), (("Format").toList, format_score),
     (("Topic").toList, topic_score)]

/-- The spec's wording of type inference (§4.3 step 1): the type with the
highest keyword count wins, ties broken by the enumeration order
Operation, Data, Format, Topic; Identifier is never inferred. -/
def spec_infer_concept_type (description : Str) : Str :=
  let dl := pyLower description
  let o := count_keywords operation_keywords dl
  let da := count_keywords data_keywords dl
  let f := count_keywords format_keywords dl
  let t := count_keywords topic_keywords dl
  if da ≤ o ∧ f ≤ o ∧ t ≤ o then ("Operation").toList
  else if f ≤ da ∧ t ≤ da then ("Data").toList
  else if t ≤ f then ("Format").toList
  else ("Topic").toList

/-- Embedding of `_generate_label_variations(text)`: title-cased full text; title-cased
first three words when there is more than one word; title-cased first
four non-stop-words when any remain; then `list(set(...))`
(determinized, see module header). -/
def generate_label_variations (text : Str) : List Str :=
  let title_case := pyTitle text
  let variations := [title_case]
  let words := pySplitWs text
  let variations :=
    if 1 < words.length then variations ++ [pyTitle (joinSp (words.take 3))]
    else variations
  let common_words : List Str :=
    [("the").toList, ("a").toList, ("an").toList, ("and").toList, ("or").toList,
     ("for").toList, ("with").toList, ("in").toList, ("on").toList, ("at").toList,
     ("to").toList, ("of").toList]
  let filtered_words := words.filter (fun w => pyLower w ∉ common_words)
  let variations :=
    if filtered_words ≠ [] then variations ++ [pyTitle (joinSp (filtered_words.take 4))]
    else variations
  pyListSet variations

/-- Embedding of `_generate_uri(label, concept_type)`: strip characters outside
`[a-zA-Z0-9\s]`, replace whitespace runs by `_`, lower-case, and prefix
with the EDAM namespace and the lowered type. -/
def generate_uri (label ty : Str) : Str :=
  let uri_part := pyLower (wsRunsTo '_' (label.filter (fun c => isAsciiAlphanum c || pyIsSpace c)))
  ("http://edamontology.org/").toList ++ pyLower ty ++ ('_' :: uri_part)

/-- Embedding of `_generate_definition(description, label, concept_type)`: the stripped
description, first letter upper-cased, with a trailing period enforced. -/
def generate_definition (description : Str) : Str :=
  let d := pyStrip description
  match d with
  | [] => []
  | c :: cs =>
    let d₂ := c.toUpper :: cs
    if d₂.getLast? = some '.' then d₂ else d₂ ++ ['.']

/-- The f-string `f"Generated from description: '{description}'"`. -/
def label_rationale (description : Str) : Str :=
  ("Generated from description: ").toList ++ (apos :: description) ++ [apos]

/-- The f-string `f"Suggested as child of '{parent}' based on description"`. -/
def hier_rationale (parent : Str) : Str :=
  ("Suggested as child of ").toList ++ (apos :: parent) ++ (apos :: (" based on description").toList)

/-- Embedding of `_calculate_label_confidence(label, description)`.  The code applies
a sequence of `confidence += …` steps whose conditions do not depend on
the accumulator, so it is written as the base `0.5` plus four
conditional bonuses, clipped at `1.0`:
3–6 words `+0.2`; length `> 10` `+0.1`; only `[a-zA-Z0-9\s]+` `+0.1`;
word overlap with the description `+min(0.1·overlap, 0.2)`. -/
def calculate_label_confidence (label description : Str) : ℚ :=
  let words := pySplitWs label
  let b1 : ℚ := if 3 ≤ words.length ∧ words.length ≤ 6 then 1 / 5 else 0
  let b2 : ℚ := if 10 < label.length then 1 / 10 else 0
  let b3 : ℚ :=
    if label ≠ [] ∧ label.all (fun c => isAsciiAlphanum c || pyIsSpace c) then 1 / 10
    else 0
  let overlap :=
    ((pyListSet (pySplitWs (pyLower description))).filter
      (fun w => w ∈ pySplitWs (pyLower label))).length
  let b4 : ℚ := if 0 < overlap then min ((1 / 10) * (overlap : ℚ)) (1 / 5) else 0
  min (1 / 2 + b1 + b2 + b3 + b4) 1

/-- Embedding of `_calculate_hierarchical_confidence(description, parent_uri)`: base
`0.6`; when the parent is loaded, `+0.2` if its label occurs in the
description (case-insensitively) and `+min(0.1·overlap, 0.2)` for word
overlap between its truthy definition and the description; clipped at
`1.0`. -/
def calculate_hierarchical_confidence (st : MatcherState) (description parentUri : Str) : ℚ :=
  match pyDictGet st.concepts parentUri with
  | none => min (3 / 5) 1
  | some pc =>
    let b1 : ℚ := if strContains (pyLower description) (pyLower pc.label) then 1 / 5 else 0
    let b2 : ℚ :=
      match pc.definition with
      | some d =>
        if d = [] then 0
        else
          let overlap :=
            ((pyListSet (pySplitWs (pyLower d))).filter
              (fun w => w ∈ pySplitWs (pyLower description))).length
          if 0 < overlap then min ((1 / 10) * (overlap : ℚ)) (1 / 5) else 0
      | none => 0
    min (3 / 5 + b1 + b2) 1

/-- The loop of `_generate_label_based_suggestions` over the (already
truncated) label variations; `SuggestedConcept` construction is pydantic
validated. -/
def build_label_suggestions (description ty : Str) :
    List Str → Except PyErr (List SuggestedConcept)
  | [] => Except.ok []
  | label :: rest =>
    match mk_suggested_concept label (generate_uri label ty) ty
        (generate_definition description) none (label_rationale description)
        (calculate_label_confidence label description) with
    | Except.error e => Except.error e
    | Except.ok s =>
      match build_label_suggestions description ty rest with
      | Except.error e => Except.error e
      | Except.ok ss => Except.ok (s :: ss)

/-- Embedding of `_generate_label_based_suggestions(description, concept_type,
max_suggestions)`. -/
def generate_label_based_suggestions (description ty : Str) (maxS : Nat) :
    Except PyErr (List SuggestedConcept) :=
  build_label_suggestions description ty
    ((generate_label_variations (preprocess_text description)).take maxS)

/-- Embedding of `_generate_contextual_label(description, parent_uri)`: when the parent
is loaded, the title-cased first two words of the description followed by
the parent label; otherwise the title-cased description. -/
def generate_contextual_label (st : MatcherState) (description parentUri : Str) : Str :=
  match pyDictGet st.concepts parentUri with
  | some pc => pyTitle (joinSp ((pySplitWs description).take 2)) ++ (' ' :: pc.label)
  | none => pyTitle description

/-- Embedding of `_find_potential_parents(description, concept_type)`: semantic match
at the relaxed threshold `0.3` (`max_results=10`), collect the `parents`
of every returned concept, `list(set(...))`.  (The code also computes
`get_concepts_by_type(concept_type)` and never uses it.) -/
def find_potential_parents (st : MatcherState) (description : Str) :
    Except PyErr (List Str) :=
  match match_concepts st description none 10 (3 / 10) with
  | Except.error e => Except.error e
  | Except.ok found =>
    Except.ok (pyListSet (found.foldl
      (fun acc m =>
        match pyDictGet st.concepts m.concept_uri with
        | some c => if c.parents ≠ [] then acc ++ c.parents else acc
        | none => acc) []))

/-- The loop of `_generate_hierarchical_suggestions` over the (already
truncated) candidate parents. -/
def build_hier_suggestions (st : MatcherState) (description ty : Str) :
    List Str → Except PyErr (List SuggestedConcept)
  | [] => Except.ok []
  | parent :: rest =>
    let label := generate_contextual_label st description parent
    match mk_suggested_concept label (generate_uri label ty) ty
        (generate_definition description) (some parent) (hier_rationale parent)
        (calculate_hierarchical_confidence st description parent) with
    | Except.error e => Except.error e
    | Except.ok s =>
      match build_hier_suggestions st description ty rest with
      | Except.error e => Except.error e
      | Except.ok ss => Except.ok (s :: ss)

/-- Embedding of `_generate_hierarchical_suggestions(description, concept_type,
parent_concept, max_suggestions)`: find candidate parents, prepend a
truthy parent hint, truncate, and build one suggestion per parent. -/
def generate_hierarchical_suggestions (st : MatcherState) (description ty : Str)
    (parentHint : Option Str) (maxS : Nat) : Except PyErr (List SuggestedConcept) :=
  match find_potential_parents st description with
  | Except.error e => Except.error e
  | Except.ok pp =>
    let pp :=
      match parentHint with
      | some p => if p = [] then pp else p :: pp
      | none => pp
    build_hier_suggestions st description ty (pp.take maxS)

/-- Embedding of `_deduplicate_suggestions(suggestions)`: keep the first suggestion
for each exact label string. -/
def deduplicate_suggestions_aux (seen : List Str) :
    List SuggestedConcept → List SuggestedConcept
  | [] => []
  | s :: rest =>
    if s.suggested_label ∈ seen then deduplicate_suggestions_aux seen rest
    else s :: deduplicate_suggestions_aux (s.suggested_label :: seen) rest

/-- Embedding of `_deduplicate_suggestions(suggestions)`. -/
def deduplicate_suggestions (l : List SuggestedConcept) : List SuggestedConcept :=
  deduplicate_suggestions_aux [] l

set_option linter.unusedVariables false in
/-- Embedding of `ConceptSuggester.suggest_concepts(description, concept_type,
parent_concept, rationale, max_suggestions)`: infer the type when the
argument is falsy, generate label-based then hierarchical suggestions,
deduplicate by label, sort descending by confidence, truncate.  (The
`rationale` parameter is accepted and never used, as in the source.) -/
def suggest_concepts (st : MatcherState) (description : Str)
    (concept_type : Option Str) (parent_concept : Option Str)
    (rationale : Option Str) (max_suggestions : Nat) :
    Except PyErr (List SuggestedConcept) :=
  let ty :=
    match concept_type with
    | some t => if t = [] then infer_concept_type description else t
    | none => infer_concept_type description
  match generate_label_based_suggestions description ty max_suggestions with
  | Except.error e => Except.error e
  | Except.ok lab =>
    match generate_hierarchical_suggestions st description ty parent_concept
        max_suggestions with
    | Except.error e => Except.error e
    | Except.ok hier =>
      Except.ok ((pySortDescBy (fun s => s.confidence)
        (deduplicate_suggestions (lab ++ hier))).take max_suggestions)

/-!
## Concrete fixtures used by the witness and counterexample runs
-/

/-- A working encoder capability (a constant one-dimensional embedding);
used only so that concrete runs exercise the full pipeline. -/
def trivialEncoder : Str → List ℚ := fun _ => [1]

/-- Matcher/suggester state over an empty ontology with the embedding
dependency available. -/
def c6State : MatcherState := ⟨[], some trivialEncoder, none, [], fun q => q⟩

/-- The description of the spec's worked example. -/
def c6Description : Str := ("FASTQ file format").toList

/-- The exact output of `suggest_concepts` on the worked example over
`c6State`: a single label-based suggestion. -/
def c6Expected : List SuggestedConcept :=
  [⟨("Fastq File Format").toList,
    ("http://edamontology.org/format_fastq_file_format").toList,
    ("Format").toList,
    ("FASTQ file format.").toList,
    none,
    label_rationale c6Description,
    1⟩]

/-- State for the confidence-bound witness run. -/
def c10State : MatcherState := ⟨[], some trivialEncoder, none, [], fun q => q⟩

/-- The single suggestion produced by `suggest_concepts` on
`"data table"` with explicit type `"Data"` over `c10State`. -/
def c10Item : SuggestedConcept :=
  ⟨("Data Table").toList,
   ("http://edamontology.org/data_data_table").toList,
   ("Data").toList,
   ("Data table.").toList,
   none,
   label_rationale (("data table").toList),
   4 / 5⟩

/-- Neighbor-search fixture: two concepts that are each other's
parent/child. -/
def c3ConceptA : EdamConcept :=
  ⟨("Alpha").toList, none, [], ("Data").toList, [("http://x/b").toList], []⟩

/-- Second concept of the neighbor-search fixture. -/
def c3ConceptB : EdamConcept :=
  ⟨("Beta").toList, none, [], ("Data").toList, [], [("http://x/a").toList]⟩

/-- The two-concept graph of the neighbor-search fixture. -/
def c3Graph : Graph :=
  [(("http://x/a").toList, c3ConceptA), (("http://x/b").toList, c3ConceptB)]

/-- The single match returned by the neighbor-search witness run. -/
def c3Match : ConceptMatch :=
  ⟨("http://x/b").toList, ("Beta").toList, 4 / 5, ("Data").toList, none, []⟩

/-- Exact-match fixture concept. -/
def c5Concept : EdamConcept :=
  ⟨("Sequence alignment").toList, none, [("aln").toList], ("Operation").toList, [], []⟩

/-- Exact-match fixture graph. -/
def c5Graph : Graph := [(("http://edamontology.org/operation_0001").toList, c5Concept)]

/-- A self-referential concept URI (its concept lists itself as parent). -/
def cycUri : Str := ("http://edamontology.org/data_cyclic").toList

/-- The self-referential concept. -/
def cycConcept : EdamConcept :=
  ⟨("Cyclic").toList, none, [], ("Data").toList, [cycUri], []⟩

/-- A loaded collection whose parent relation is self-referential. -/
def cycGraph : Graph := [(cycUri, cycConcept)]

/-!
## Theorems
-/

/-- C1: `load_ontology()` never returns `True`: its very first statement
inside the `try` block, `self._is_cache_fresh()`, raises `NameError`
(`loader.py` never imports `os`/`time`/`pickle`), the blanket
`except Exception` catches it, and `False` is returned with the state
untouched — even when the configured source is a valid, reachable
ontology document (`fetched = Except.ok g`), contradicting the claim
that such documents yield `True` and a populated concept collection. -/
theorem load_ontology_always_false (st : LoaderState) (fetched : Except PyErr Graph) :
    load_ontology st fetched = (false, st) := rfl

/-- C2: when the embedding capability is unavailable
(`sentence_transformers` cannot be imported, `capability = none` in the
initial matcher state), `match_concepts` does not return an empty list:
`_build_embeddings` swallows the `ImportError` but leaves
`self.embedding_model = None`, and `match_concepts` then calls
`self.embedding_model.encode(...)`, raising `AttributeError` — for every
description, context, `max_results` and `min_confidence`. -/
theorem match_concepts_missing_dependency_raises (g : Graph) (sq : ℚ → ℚ)
    (description : Str) (context : Option Str) (max_results : Nat)
    (min_confidence : ℚ) :
    match_concepts ⟨g, none, none, [], sq⟩ description context max_results
      min_confidence = Except.error PyErr.attributeError := rfl

/-- C7 counterexample: `calculate_weighted_similarity([], [1.0])` is a
pair of lists of differing lengths, yet the call does not fail — the
leading emptiness guard returns `0.0` before the length check runs, so
the claim "for every pair of lists whose lengths differ the call fails"
is false at this input. -/
theorem calculate_weighted_similarity_silent_on_empty :
    calculate_weighted_similarity [] [(1 : ℚ)] = Except.ok 0 ∧
      ([] : List ℚ).length ≠ [(1 : ℚ)].length := ⟨rfl, by decide⟩

/-- C7 (amended): for every pair of NON-EMPTY lists whose lengths
differ, `calculate_weighted_similarity` raises `ValueError` — the
caller-visible rejection the spec demands, which the code only applies
once both lists are non-empty. -/
theorem calculate_weighted_similarity_nonempty_mismatch_raises
    (similarities weights : List ℚ) (h₁ : similarities ≠ []) (h₂ : weights ≠ [])
    (h₃ : similarities.length ≠ weights.length) :
    calculate_weighted_similarity similarities weights
      = Except.error PyErr.valueError := by
  have e₁ : similarities.isEmpty = false := by
    cases similarities with
    | nil => exact absurd rfl h₁
    | cons a t => rfl
  have e₂ : weights.isEmpty = false := by
    cases weights with
    | nil => exact absurd rfl h₂
    | cons a t => rfl
  simp [calculate_weighted_similarity, e₁, e₂, h₃]

/-- Witness for C7's amended theorem at `([1.0], [1.0, 2.0])`. -/
theorem calculate_weighted_similarity_mismatch_witness :
    calculate_weighted_similarity [(1 : ℚ)] [(1 : ℚ), 2]
      = Except.error PyErr.valueError :=
  calculate_weighted_similarity_nonempty_mismatch_raises [(1 : ℚ)] [(1 : ℚ), 2]
    (by decide) (by decide) (by decide)

/-- On the self-referential fixture, every loop iteration re-visits
`cycUri` (the code keeps no visited set), so no amount of fuel finishes
the walk. -/
theorem hierarchy_loop_self_parent_diverges (fuel : Nat) :
    ∀ acc, hierarchy_loop cycGraph fuel (some cycUri) acc = none := by
  induction fuel with
  | zero => intro acc; rfl
  | succ n ih =>
    intro acc
    have hstep : hierarchy_loop cycGraph (n + 1) (some cycUri) acc
        = hierarchy_loop cycGraph n (some cycUri) (cycConcept.label :: acc) := rfl
    rw [hstep]
    exact ih _

/-- C4: `get_concept_hierarchy` does NOT terminate on every loaded
collection: on a self-referential concept (`cycGraph`, where the concept
lists itself as its first parent) the `while` loop follows `parents[0]`
forever — there is no visited set in the code — so the fuel-indexed
embedding returns `none` (loop unfinished) for every fuel, refuting the
claimed visited-set-bounded termination. -/
theorem get_concept_hierarchy_cycle_diverges (fuel : Nat) :
    get_concept_hierarchy cycGraph cycUri fuel = none :=
  hierarchy_loop_self_parent_diverges fuel []

/-- Dequeuing an unvisited URI that is not in the loaded collection at a
distance strictly below `max_distance` makes the expansion step read
`concept["parents"]` on `None`, raising `TypeError`. -/
theorem neighbors_loop_dequeue_missing (g : Graph) (maxD fuel : Nat)
    (visited : List Str) (rest : List (Str × Nat)) (u : Str) (d : Nat)
    (acc : List (ConceptMatch × Nat)) (hu : u ∉ visited) (hd : d < maxD)
    (hnone : pyDictGet g u = none) :
    neighbors_loop g maxD (fuel + 1) visited ((u, d) :: rest) acc
      = some (Except.error PyErr.typeError) := by
  have hcond : ¬(u ∈ visited ∨ maxD < d) := by
    intro h
    rcases h with h | h
    · exact hu h
    · omega
  simp only [neighbors_loop, if_neg hcond, hnone, if_pos hd]

/-- C9: `get_concept_neighbors(uri, maxDistance)` raises (`TypeError`)
rather than returning a list whenever (a) the start URI is not loaded
and `maxDistance ≥ 1`, and (b) more generally whenever the traversal
dequeues, at a distance strictly less than `maxDistance`, any unvisited
parent/child URI that is not loaded — the expansion step reads the
fields of a concept `get_concept` did not find. -/
theorem get_concept_neighbors_missing_raises :
    (∀ (g : Graph) (uri : Str) (maxD fuel : Nat),
      pyDictGet g uri = none → 1 ≤ maxD →
      get_concept_neighbors g uri maxD (fuel + 1)
        = some (Except.error PyErr.typeError)) ∧
    (∀ (g : Graph) (maxD fuel : Nat) (visited : List Str)
      (rest : List (Str × Nat)) (u : Str) (d : Nat)
      (acc : List (ConceptMatch × Nat)), u ∉ visited → d < maxD →
      pyDictGet g u = none →
      neighbors_loop g maxD (fuel + 1) visited ((u, d) :: rest) acc
        = some (Except.error PyErr.typeError)) := by
  constructor
  · intro g uri maxD fuel hnone hmax
    have h := neighbors_loop_dequeue_missing g maxD fuel [] [] uri 0 []
      (by simp) (by omega) hnone
    simp [get_concept_neighbors, get_concept_neighbors_dist, h, Except.map]
  · intro g maxD fuel visited rest u d acc hu hd hnone
    exact neighbors_loop_dequeue_missing g maxD fuel visited rest u d acc hu hd hnone

/-- Witness for C9: both conjuncts evaluated on concrete inputs — the
empty graph with an unknown start URI at `maxDistance = 1`, and a
mid-traversal dequeue of an unknown URI below `maxDistance = 2`. -/
theorem get_concept_neighbors_missing_raises_witness :
    get_concept_neighbors [] (("x").toList) 1 1
      = some (Except.error PyErr.typeError) ∧
    neighbors_loop [] 2 1 [] [((("y").toList), 0)] []
      = some (Except.error PyErr.typeError) := by
  constructor
  · exact get_concept_neighbors_missing_raises.1 [] (("x").toList) 1 0 rfl (by omega)
  · exact get_concept_neighbors_missing_raises.2 [] 2 0 [] [] (("y").toList) 0 []
      (by simp) (by omega) rfl

/-- A `filterMap` whose hits agree with a `map` is a sublist of that
`map` — the returned matches appear in graph iteration order. -/
theorem filterMap_sublist_map {α β : Type} (l : List α) (f : α → Option β)
    (g : α → β) (hf : ∀ a b, f a = some b → b = g a) :
    (l.filterMap f).Sublist (l.map g) := by
  induction l with
  | nil => simp
  | cons a t ih =>
    cases hfa : f a with
    | none =>
      rw [List.filterMap_cons_none hfa, List.map_cons]
      exact (ih).cons (g a)
    | some b =>
      rw [List.filterMap_cons_some hfa, List.map_cons, hf a b hfa]
      exact (ih).cons₂ (g a)

/-- Under the case-insensitive equality hypothesis, `exact_match_for`
produces the concept's match. -/
theorem exact_match_for_hit (dl : Str) (uri : Str) (c : EdamConcept)
    (hcond : dl = pyLower c.label ∨ ∃ s ∈ c.synonyms, dl = pyLower s) :
    exact_match_for dl uri c
      = some ⟨uri, c.label, 1, c.ctype, c.definition, c.synonyms⟩ := by
  unfold exact_match_for
  by_cases hl : dl = pyLower c.label
  · rw [if_pos hl]
  · rcases hcond with h | ⟨s, hs, h⟩
    · exact absurd h hl
    · rw [if_neg hl, if_pos]
      simp only [List.any_eq_true]
      exact ⟨s, hs, by simp [h]⟩

/-- C5: for every loaded concept and every input equal
case-insensitively to its label or one of its synonyms,
`find_exact_matches` includes a match for that concept with confidence
exactly `1.0`; and the full result list is a sublist of the per-concept
match list in graph iteration order (all equal concepts are returned,
each at most once, in that order). -/
theorem find_exact_matches_spec (g : Graph) (description : Str) :
    (∀ uri c, (uri, c) ∈ g →
      (pyLower description = pyLower c.label ∨
        ∃ s ∈ c.synonyms, pyLower description = pyLower s) →
      ∃ m ∈ find_exact_matches g description,
        m.concept_uri = uri ∧ m.confidence = 1) ∧
    (find_exact_matches g description).Sublist
      (g.map (fun p => ⟨p.1, p.2.label, 1, p.2.ctype, p.2.definition, p.2.synonyms⟩)) := by
  constructor
  · intro uri c hmem hcond
    refine ⟨⟨uri, c.label, 1, c.ctype, c.definition, c.synonyms⟩, ?_, rfl, rfl⟩
    unfold find_exact_matches
    exact List.mem_filterMap.mpr ⟨(uri, c), hmem, exact_match_for_hit _ uri c hcond⟩
  · unfold find_exact_matches
    refine filterMap_sublist_map g _ _ ?_
    intro p m h
    unfold exact_match_for at h
    by_cases h₁ : pyLower description = pyLower p.2.label
    · rw [if_pos h₁] at h
      exact (Option.some_inj.mp h).symm
    · rw [if_neg h₁] at h
      by_cases h₂ : p.2.synonyms.any (fun s => decide (pyLower description = pyLower s)) = true
      · rw [if_pos h₂] at h
        exact (Option.some_inj.mp h).symm
      · rw [if_neg h₂] at h
        cases h

/-- Witness for C5 on the one-concept fixture: the input
`"SEQUENCE ALIGNMENT"` equals the label `"Sequence alignment"` up to
case and is matched with confidence `1.0`. -/
theorem find_exact_matches_spec_witness :
    ∃ m ∈ find_exact_matches c5Graph (("SEQUENCE ALIGNMENT").toList),
      m.concept_uri = ("http://edamontology.org/operation_0001").toList ∧
        m.confidence = 1 :=
  (find_exact_matches_spec c5Graph (("SEQUENCE ALIGNMENT").toList)).1
    (("http://edamontology.org/operation_0001").toList) c5Concept
    (by simp [c5Graph]) (Or.inl (by decide))

/-- Python's first-maximum `max(scores, key=scores.get)` over the
four-entry score dict agrees with the explicit
highest-count / tie-by-enumeration-order selection. -/
theorem pyMaxKeyAux_four (a b c d : Nat) :
    pyMaxKeyAux (("Operation").toList, a)
      [(("Data").toList, b), (("Format").toList, c), (("Topic").toList, d)] =
    (if b ≤ a ∧ c ≤ a ∧ d ≤ a then ("Operation").toList
     else if c ≤ b ∧ d ≤ b then ("Data").toList
     else if d ≤ c then ("Format").toList
     else ("Topic").toList) := by
  simp only [pyMaxKeyAux]
  split_ifs <;> first | rfl | omega

attribute [local semireducible] Rat.add Rat.mul Rat.inv Rat.sub in
/-- C6 counterexample: on `suggest("FASTQ file format")` with no
explicit type (over `c6State`), the type `"Format"` IS inferred, the
call succeeds with one label-based suggestion, but no returned
`suggested_uri` starts with the bare prefix `format_` — every generated
URI starts with the namespace `http://edamontology.org/`
(`_generate_uri` returns `f"http://edamontology.org/{type}_{slug}"`),
so the claim's example is false as stated. -/
theorem suggest_concepts_uri_counterexample :
    infer_concept_type c6Description = ("Format").toList ∧
    suggest_concepts c6State c6Description none none none 5 = Except.ok c6Expected ∧
    c6Expected.all
      (fun s => !(leadsWith (("format_").toList) s.suggested_uri)) = true := by
  refine ⟨by decide, by decide, by decide⟩

attribute [local semireducible] Rat.add Rat.mul Rat.inv Rat.sub in
/-- C6 (amended): the inference algorithm is exactly as claimed — the
code's `max(scores, key=scores.get)` equals the
highest-substring-count selection with ties broken in the enumeration
order Operation, Data, Format, Topic, and `"Identifier"` is never
inferred; the worked example infers `"Format"` and yields a label-based
suggestion (no parent) whose `suggested_uri` starts with
`http://edamontology.org/format_` — the EDAM namespace followed by
`format_`, rather than the bare `format_` of the claim. -/
theorem infer_concept_type_spec :
    (∀ description : Str,
      infer_concept_type description = spec_infer_concept_type description) ∧
    (∀ description : Str,
      infer_concept_type description ≠ ("Identifier").toList) ∧
    infer_concept_type c6Description = ("Format").toList ∧
    suggest_concepts c6State c6Description none none none 5 = Except.ok c6Expected ∧
    (∃ s ∈ c6Expected, s.parent_concept = none ∧
      leadsWith (("http://edamontology.org/format_").toList) s.suggested_uri = true) := by
  have h1 : ∀ description : Str,
      infer_concept_type description = spec_infer_concept_type description := by
    intro dsc
    simp only [infer_concept_type, spec_infer_concept_type]
    exact pyMaxKeyAux_four _ _ _ _
  refine ⟨h1, ?_, by decide, by decide, by decide⟩
  intro dsc
  rw [h1 dsc]
  simp only [spec_infer_concept_type]
  split_ifs <;> decide

/-- A successfully constructed `ConceptMatch` carries exactly the
requested uri and confidence, and the pydantic range check passed. -/
theorem mk_concept_match_ok {uri : Str} {c : EdamConcept} {conf : ℚ}
    {m : ConceptMatch} (h : mk_concept_match uri c conf = Except.ok m) :
    m.concept_uri = uri ∧ m.confidence = conf ∧ 0 ≤ conf ∧ conf ≤ 1 := by
  unfold mk_concept_match at h
  split_ifs at h with hc
  · cases h
    exact ⟨rfl, rfl, hc.1, hc.2⟩

/-- Invariant of the neighbor traversal: once the start URI is in the
visited set, every match a successful run returns either was already
accumulated or is emitted for an unvisited node (hence not the start)
with validated confidence `1 - d/5`. -/
theorem neighbors_loop_ok_inv (g : Graph) (uri : Str) (maxD : Nat) :
    ∀ (fuel : Nat) (visited : List Str) (queue : List (Str × Nat))
      (acc l : List (ConceptMatch × Nat)),
      uri ∈ visited →
      (∀ p ∈ acc, p.1.concept_uri ≠ uri ∧
        p.1.confidence = max 0 (1 - (p.2 : ℚ) * (1 / 5))) →
      neighbors_loop g maxD fuel visited queue acc = some (Except.ok l) →
      ∀ p ∈ l, p.1.concept_uri ≠ uri ∧
        p.1.confidence = max 0 (1 - (p.2 : ℚ) * (1 / 5)) := by
  intro fuel
  induction fuel with
  | zero => intro visited queue acc l _ _ hrun; cases hrun
  | succ n ih =>
    intro visited queue acc l hvis hacc hrun
    cases queue with
    | nil =>
      simp only [neighbors_loop] at hrun
      cases hrun
      exact hacc
    | cons head rest =>
      obtain ⟨u, d⟩ := head
      by_cases hskip : u ∈ visited ∨ maxD < d
      · rw [show neighbors_loop g maxD (n + 1) visited ((u, d) :: rest) acc
            = if u ∈ visited ∨ maxD < d then neighbors_loop g maxD n visited rest acc
              else _ from rfl, if_pos hskip] at hrun
        exact ih visited rest acc l hvis hacc hrun
      · have hu : u ∉ visited := fun h => hskip (Or.inl h)
        simp only [neighbors_loop, if_neg hskip] at hrun
        cases hlook : pyDictGet g u with
        | none =>
          simp only [hlook] at hrun
          by_cases hd : d < maxD
          · rw [if_pos hd] at hrun
            cases hrun
          · rw [if_neg hd] at hrun
            exact ih (u :: visited) rest acc l (List.mem_cons_of_mem u hvis) hacc hrun
        | some c =>
          simp only [hlook] at hrun
          by_cases hdpos : 0 < d
          · rw [if_pos hdpos] at hrun
            cases hmk : mk_concept_match u c (1 - (d : ℚ) * (1 / 5)) with
            | error e => simp only [hmk] at hrun; cases hrun
            | ok m =>
              simp only [hmk] at hrun
              obtain ⟨hmu, hmc, hc0, hc1⟩ := mk_concept_match_ok hmk
              refine ih (u :: visited) _ (acc ++ [(m, d)]) l
                (List.mem_cons_of_mem u hvis) ?_ hrun
              intro p hp
              rcases List.mem_append.mp hp with hp | hp
              · exact hacc p hp
              · rcases List.mem_singleton.mp hp with rfl
                refine ⟨?_, ?_⟩
                · intro he
                  exact hu (by rw [← hmu, he]; exact hvis)
                · rw [hmc, max_eq_right hc0]
          · rw [if_neg hdpos] at hrun
            exact ih (u :: visited) _ acc l (List.mem_cons_of_mem u hvis) hacc hrun

/-- C3: whenever `get_concept_neighbors(uri, maxDistance)` returns a
list (fuel-indexed run yields `Except.ok`), the list never contains the
start URI, and every returned neighbor first dequeued at breadth-first
traversal distance `d` carries confidence exactly
`max(0, 1.0 - 0.2·d)` — the emitted value is `1 - d/5`, which the
pydantic range check forces to be nonnegative, so the `max` is the
identity on it. -/
theorem get_concept_neighbors_spec (g : Graph) (concept_uri : Str)
    (maxD fuel : Nat) (l : List (ConceptMatch × Nat))
    (h : get_concept_neighbors_dist g concept_uri maxD fuel
      = some (Except.ok l)) :
    (∀ p ∈ l, p.1.concept_uri ≠ concept_uri ∧
      p.1.confidence = max 0 (1 - (p.2 : ℚ) * (1 / 5))) ∧
    get_concept_neighbors g concept_uri maxD fuel
      = some (Except.ok (l.map Prod.fst)) := by
  constructor
  · unfold get_concept_neighbors_dist at h
    cases fuel with
    | zero => cases h
    | succ n =>
      have hskip : ¬(concept_uri ∈ ([] : List Str) ∨ maxD < 0) := by
        intro hc
        rcases hc with hc | hc
        · exact (List.not_mem_nil _) hc
        · omega
      simp only [neighbors_loop, if_neg hskip] at h
      cases hlook : pyDictGet g concept_uri with
      | none =>
        simp only [hlook] at h
        by_cases hd : 0 < maxD
        · rw [if_pos hd] at h
          cases h
        · rw [if_neg hd] at h
          exact neighbors_loop_ok_inv g concept_uri maxD n [concept_uri] [] [] l
            (List.mem_cons_self _ _) (by intro p hp; cases hp) h
      | some c =>
        simp only [hlook] at h
        rw [if_neg (by omega : ¬(0:Nat) < 0)] at h
        exact neighbors_loop_ok_inv g concept_uri maxD n [concept_uri] _ [] l
          (List.mem_cons_self _ _) (by intro p hp; cases hp) h
  · simp [get_concept_neighbors, h, Except.map]

attribute [local semireducible] Rat.add Rat.mul Rat.inv Rat.sub in
/-- Witness for C3 on the two-concept fixture: the run from
`http://x/a` at `maxDistance = 2` returns exactly the neighbor `Beta`
at distance 1 with confidence `0.8 = max(0, 1 - 0.2·1)`. -/
theorem get_concept_neighbors_spec_witness :
    (c3Match.concept_uri ≠ ("http://x/a").toList ∧
      c3Match.confidence = max 0 (1 - ((1 : Nat) : ℚ) * (1 / 5))) ∧
    get_concept_neighbors c3Graph (("http://x/a").toList) 2 10
      = some (Except.ok [c3Match]) := by
  have h := get_concept_neighbors_spec c3Graph (("http://x/a").toList) 2 10
    [(c3Match, 1)] (by decide)
  exact ⟨h.1 (c3Match, 1) (List.mem_singleton.mpr rfl), by simpa using h.2⟩

/-- Clipping at `1.0` keeps a value between its base and `1`. -/
theorem clip_bounds (base x : ℚ) (hbase : base ≤ x) (h1 : base ≤ 1) :
    base ≤ min x 1 ∧ min x 1 ≤ 1 :=
  ⟨le_min hbase h1, min_le_right _ _⟩

/-- Four non-negative bonuses on a `0.5` base. -/
theorem sum4_ge (b1 b2 b3 b4 : ℚ) (h1 : 0 ≤ b1) (h2 : 0 ≤ b2) (h3 : 0 ≤ b3)
    (h4 : 0 ≤ b4) : (1 : ℚ) / 2 ≤ 1 / 2 + b1 + b2 + b3 + b4 := by linarith

/-- Two non-negative bonuses on a `0.6` base still dominate `0.5`. -/
theorem sum2_ge (b1 b2 : ℚ) (h1 : 0 ≤ b1) (h2 : 0 ≤ b2) :
    (1 : ℚ) / 2 ≤ 3 / 5 + b1 + b2 := by linarith

/-- Label-based confidence always lies in `[0.5, 1]`: base `0.5`, all
bonuses non-negative, clipped at `1.0`. -/
theorem calculate_label_confidence_bounds (label description : Str) :
    1 / 2 ≤ calculate_label_confidence label description ∧
      calculate_label_confidence label description ≤ 1 := by
  simp only [calculate_label_confidence]
  refine clip_bounds _ _ ?_ (by norm_num)
  apply sum4_ge
  · split_ifs <;> positivity
  · split_ifs <;> positivity
  · split_ifs <;> positivity
  · split_ifs <;> positivity

/-- Hierarchical confidence always lies in `[0.5, 1]` (in fact
`[0.6, 1]`): base `0.6`, non-negative bonuses, clipped at `1.0`. -/
theorem calculate_hierarchical_confidence_bounds (st : MatcherState)
    (description parentUri : Str) :
    1 / 2 ≤ calculate_hierarchical_confidence st description parentUri ∧
      calculate_hierarchical_confidence st description parentUri ≤ 1 := by
  unfold calculate_hierarchical_confidence
  cases pyDictGet st.concepts parentUri with
  | none => exact clip_bounds _ _ (by norm_num) (by norm_num)
  | some pc =>
    refine clip_bounds _ _ ?_ (by norm_num)
    apply sum2_ge
    · split_ifs <;> positivity
    · cases pc.definition with
      | none => dsimp only; positivity
      | some dd =>
        dsimp only
        split_ifs <;> positivity

/-- A successfully constructed `SuggestedConcept` carries exactly the
requested confidence. -/
theorem mk_suggested_concept_ok {label uri ty defn : Str} {parent : Option Str}
    {rat : Str} {conf : ℚ} {s : SuggestedConcept}
    (h : mk_suggested_concept label uri ty defn parent rat conf = Except.ok s) :
    s.confidence = conf := by
  unfold mk_suggested_concept at h
  split_ifs at h
  cases h
  rfl

/-- Every suggestion a successful label-based generation returns has
confidence in `[0.5, 1]`. -/
theorem build_label_suggestions_conf (description ty : Str) :
    ∀ (labels : List Str) (l : List SuggestedConcept),
      build_label_suggestions description ty labels = Except.ok l →
      ∀ s ∈ l, 1 / 2 ≤ s.confidence ∧ s.confidence ≤ 1 := by
  intro labels
  induction labels with
  | nil => intro l h s hs; cases h; cases hs
  | cons lab rest ih =>
    intro l h s hs
    simp only [build_label_suggestions] at h
    cases hmk : mk_suggested_concept lab (generate_uri lab ty) ty
        (generate_definition description) none (label_rationale description)
        (calculate_label_confidence lab description) with
    | error e => simp only [hmk] at h; cases h
    | ok s₂ =>
      simp only [hmk] at h
      cases hb : build_label_suggestions description ty rest with
      | error e => simp only [hb] at h; cases h
      | ok ss =>
        simp only [hb] at h
        cases h
        rcases List.mem_cons.mp hs with rfl | hs
        · rw [mk_suggested_concept_ok hmk]
          exact calculate_label_confidence_bounds lab description
        · exact ih ss hb s hs

/-- Every suggestion a successful hierarchical generation returns has
confidence in `[0.5, 1]`. -/
theorem build_hier_suggestions_conf (st : MatcherState) (description ty : Str) :
    ∀ (parents : List Str) (l : List SuggestedConcept),
      build_hier_suggestions st description ty parents = Except.ok l →
      ∀ s ∈ l, 1 / 2 ≤ s.confidence ∧ s.confidence ≤ 1 := by
  intro parents
  induction parents with
  | nil => intro l h s hs; cases h; cases hs
  | cons parent rest ih =>
    intro l h s hs
    simp only [build_hier_suggestions] at h
    cases hmk : mk_suggested_concept (generate_contextual_label st description parent)
        (generate_uri (generate_contextual_label st description parent) ty) ty
        (generate_definition description) (some parent) (hier_rationale parent)
        (calculate_hierarchical_confidence st description parent) with
    | error e => simp only [hmk] at h; cases h
    | ok s₂ =>
      simp only [hmk] at h
      cases hb : build_hier_suggestions st description ty rest with
      | error e => simp only [hb] at h; cases h
      | ok ss =>
        simp only [hb] at h
        cases h
        rcases List.mem_cons.mp hs with rfl | hs
        · rw [mk_suggested_concept_ok hmk]
          exact calculate_hierarchical_confidence_bounds st description parent
        · exact ih ss hb s hs

/-- Membership through stable descending insertion. -/
theorem mem_insertDesc {α : Type} (key : α → ℚ) (x a : α) (l : List α) :
    a ∈ insertDesc key x l ↔ a = x ∨ a ∈ l := by
  induction l with
  | nil => simp [insertDesc]
  | cons y ys ih =>
    unfold insertDesc
    split_ifs <;> (simp only [List.mem_cons, ih]; try tauto)

/-- The stable descending sort is a permutation membership-wise. -/
theorem mem_pySortDescBy {α : Type} (key : α → ℚ) (a : α) (l : List α) :
    a ∈ pySortDescBy key l ↔ a ∈ l := by
  induction l with
  | nil => simp [pySortDescBy]
  | cons x xs ih => simp [pySortDescBy, mem_insertDesc, ih]

/-- Deduplication only drops elements. -/
theorem mem_dedup_sub :
    ∀ (seen : List Str) (l : List SuggestedConcept) (s : SuggestedConcept),
      s ∈ deduplicate_suggestions_aux seen l → s ∈ l := by
  intro seen l
  revert seen
  induction l with
  | nil => intro seen s hs; cases hs
  | cons x xs ih =>
    intro seen s hs
    unfold deduplicate_suggestions_aux at hs
    split_ifs at hs
    · exact List.mem_cons_of_mem x (ih _ s hs)
    · rcases List.mem_cons.mp hs with rfl | hs
      · exact List.mem_cons_self _ _
      · exact List.mem_cons_of_mem x (ih _ s hs)

/-- C10: every `SuggestedConcept` returned by a successful
`suggest_concepts` call has confidence in the closed interval
`[0.5, 1.0]` — label-based candidates start from base `0.5`,
hierarchical ones from `0.6`, every bonus is non-negative and the sum
is clipped at `1.0`; deduplication, sorting and truncation only select
among those candidates. -/
theorem suggest_concepts_confidence_bounds (st : MatcherState) (description : Str)
    (concept_type parent_concept rationale : Option Str) (max_suggestions : Nat)
    (l : List SuggestedConcept)
    (h : suggest_concepts st description concept_type parent_concept rationale
      max_suggestions = Except.ok l) :
    ∀ s ∈ l, 1 / 2 ≤ s.confidence ∧ s.confidence ≤ 1 := by
  simp only [suggest_concepts] at h
  set tyv := (match concept_type with
    | some t => if t = [] then infer_concept_type description else t
    | none => infer_concept_type description) with hty
  cases hlab : generate_label_based_suggestions description tyv max_suggestions with
  | error e => simp only [hlab] at h; cases h
  | ok lab =>
    simp only [hlab] at h
    cases hhier : generate_hierarchical_suggestions st description tyv
        parent_concept max_suggestions with
    | error e => simp only [hhier] at h; cases h
    | ok hier =>
      simp only [hhier] at h
      cases h
      intro s hs
      have hs₂ : s ∈ pySortDescBy (fun s => s.confidence)
          (deduplicate_suggestions (lab ++ hier)) := List.take_subset _ _ hs
      have hs₃ : s ∈ deduplicate_suggestions (lab ++ hier) :=
        (mem_pySortDescBy _ _ _).mp hs₂
      have hs₄ : s ∈ lab ++ hier := mem_dedup_sub [] _ s hs₃
      rcases List.mem_append.mp hs₄ with hmem | hmem
      · exact build_label_suggestions_conf description tyv _ lab
          (by simpa [generate_label_based_suggestions] using hlab) s hmem
      · unfold generate_hierarchical_suggestions at hhier
        cases hp : find_potential_parents st description with
        | error e => simp only [hp] at hhier; cases hhier
        | ok pp =>
          simp only [hp] at hhier
          exact build_hier_suggestions_conf st description tyv _ hier hhier s hmem

attribute [local semireducible] Rat.add Rat.mul Rat.inv Rat.sub in
/-- Witness for C10: the concrete run on `"data table"` with explicit
type `"Data"` over `c10State` returns exactly `[c10Item]`, whose
confidence `0.8` lies in `[0.5, 1]`. -/
theorem suggest_concepts_confidence_bounds_witness :
    1 / 2 ≤ c10Item.confidence ∧ c10Item.confidence ≤ 1 := by
  have h : suggest_concepts c10State (("data table").toList)
      (some (("Data").toList)) none none 5 = Except.ok [c10Item] := by decide
  exact suggest_concepts_confidence_bounds c10State (("data table").toList)
    (some (("Data").toList)) none none 5 [c10Item] h c10Item
    (List.mem_singleton.mpr rfl)

/-- Embedding of `Char.ofNat` is left inverse to `toNat` on valid (here: basic-plane)
code points. -/
theorem char_toNat_ofNat_valid (n : Nat) (h : n < 55296) : (Char.ofNat n).toNat = n := by
  have hv : Char.isValidCharNat n := Or.inl h
  rw [Char.ofNat, dif_pos hv]
  rfl

/-- ASCII lowering is idempotent. -/
theorem toLower_idem (c : Char) : c.toLower.toLower = c.toLower := by
  simp only [Char.toLower]
  by_cases h : c.toNat ≥ 65 ∧ c.toNat ≤ 90
  · rw [if_pos h]
    have ht : (Char.ofNat (c.toNat + 32)).toNat = c.toNat + 32 :=
      char_toNat_ofNat_valid _ (by omega)
    rw [ht, if_neg (by omega)]
  · rw [if_neg h, if_neg h]

/-- Characters surviving the punctuation substitution of a lowered
string are lowering-fixed and kept. -/
theorem t2_chars (s : Str) :
    ∀ c ∈ (pyLower s).map (fun c => if keepB c then c else ' '),
      Char.toLower c = c ∧ keepB c = true := by
  intro c hc
  rcases List.mem_map.mp hc with ⟨c₁, hc₁, rfl⟩
  rcases List.mem_map.mp hc₁ with ⟨c₀, _, rfl⟩
  by_cases hk : keepB (Char.toLower c₀) = true
  · rw [if_pos hk]
    exact ⟨toLower_idem c₀, hk⟩
  · rw [if_neg hk]
    exact ⟨by decide, by decide⟩

/-- Characters of a run-collapsed string are the replacement or came
from the input. -/
theorem mem_wsRunsToAux (rep : Char) :
    ∀ (l : Str) (b : Bool) (c : Char), c ∈ wsRunsToAux rep b l → c = rep ∨ c ∈ l := by
  intro l
  induction l with
  | nil => intro b c hc; cases hc
  | cons c₀ cs ih =>
    intro b c hc
    by_cases h₀ : pyIsSpace c₀ = true
    · cases b with
      | true =>
        simp only [wsRunsToAux, h₀, if_true, if_pos] at hc
        rcases ih true c hc with h | h
        · exact Or.inl h
        · exact Or.inr (List.mem_cons_of_mem _ h)
      | false =>
        simp only [wsRunsToAux, h₀, if_true, if_pos] at hc
        rcases List.mem_cons.mp hc with rfl | hc
        · exact Or.inl rfl
        · rcases ih true c hc with h | h
          · exact Or.inl h
          · exact Or.inr (List.mem_cons_of_mem _ h)
    · simp only [wsRunsToAux, h₀] at hc
      rcases List.mem_cons.mp hc with rfl | hc
      · exact Or.inr (List.mem_cons_self _ _)
      · rcases ih false c hc with h | h
        · exact Or.inl h
        · exact Or.inr (List.mem_cons_of_mem _ h)

/-- After collapsing runs to `' '`, every whitespace character is `' '`. -/
theorem wsRunsToAux_ws_space :
    ∀ (l : Str) (b : Bool) (c : Char), c ∈ wsRunsToAux ' ' b l →
      pyIsSpace c = true → c = ' ' := by
  intro l
  induction l with
  | nil => intro b c hc; cases hc
  | cons c₀ cs ih =>
    intro b c hc hws
    by_cases h₀ : pyIsSpace c₀ = true
    · cases b with
      | true =>
        simp only [wsRunsToAux, h₀, if_true, if_pos] at hc
        exact ih true c hc hws
      | false =>
        simp only [wsRunsToAux, h₀, if_true, if_pos] at hc
        rcases List.mem_cons.mp hc with rfl | hc
        · rfl
        · exact ih true c hc hws
    · simp only [wsRunsToAux, h₀] at hc
      rcases List.mem_cons.mp hc with rfl | hc
      · exact absurd hws (by simp [h₀])
      · exact ih false c hc hws

/-- Shape of run-collapsed output: no adjacent whitespace, and the
run-skipping mode never emits a leading space. -/
theorem wsRunsToAux_shape (l : Str) :
    noAdjWs (wsRunsToAux ' ' true l) = true ∧
    headNoWs (wsRunsToAux ' ' true l) = true ∧
    noAdjWs (wsRunsToAux ' ' false l) = true := by
  induction l with
  | nil => exact ⟨rfl, rfl, rfl⟩
  | cons c cs ih =>
    obtain ⟨ihT, ihTh, ihF⟩ := ih
    by_cases hc : pyIsSpace c = true
    · refine ⟨by simpa [wsRunsToAux, hc] using ihT,
        by simpa [wsRunsToAux, hc] using ihTh, ?_⟩
      have : wsRunsToAux ' ' false (c :: cs) = ' ' :: wsRunsToAux ' ' true cs := by
        simp [wsRunsToAux, hc]
      rw [this]
      simp only [noAdjWs]
      rw [if_pos (by decide : pyIsSpace ' ' = true)]
      simp [ihT, ihTh]
    · have hT : wsRunsToAux ' ' true (c :: cs) = c :: wsRunsToAux ' ' false cs := by
        simp [wsRunsToAux, hc]
      have hF : wsRunsToAux ' ' false (c :: cs) = c :: wsRunsToAux ' ' false cs := by
        simp [wsRunsToAux, hc]
      refine ⟨?_, ?_, ?_⟩
      · rw [hT]
        simp only [noAdjWs]
        rw [if_neg (by simp [hc])]
        simp [ihF]
      · rw [hT]
        simp [headNoWs, hc]
      · rw [hF]
        simp only [noAdjWs]
        rw [if_neg (by simp [hc])]
        simp [ihF]

/-- Dropping leading whitespace leaves a non-whitespace head. -/
theorem headNoWs_dropWhile (l : Str) : headNoWs (l.dropWhile pyIsSpace) = true := by
  induction l with
  | nil => rfl
  | cons c cs ih =>
    by_cases hc : pyIsSpace c = true
    · simpa [List.dropWhile_cons, hc] using ih
    · simp [List.dropWhile_cons, hc, headNoWs]

/-- Dropping leading whitespace preserves whitespace non-adjacency. -/
theorem noAdjWs_dropWhile (l : Str) (h : noAdjWs l = true) :
    noAdjWs (l.dropWhile pyIsSpace) = true := by
  induction l with
  | nil => rfl
  | cons c cs ih =>
    simp only [noAdjWs, Bool.and_eq_true] at h
    by_cases hc : pyIsSpace c = true
    · simpa [List.dropWhile_cons, hc] using ih h.2
    · simpa [List.dropWhile_cons, hc, noAdjWs, Bool.and_eq_true] using h

/-- Membership survives dropping leading whitespace backwards. -/
theorem mem_dropWhile_ws (c : Char) (l : Str) (h : c ∈ l.dropWhile pyIsSpace) :
    c ∈ l := by
  induction l with
  | nil => cases h
  | cons c₀ cs ih =>
    by_cases hc : pyIsSpace c₀ = true
    · rw [List.dropWhile_cons, if_pos hc] at h
      exact List.mem_cons_of_mem _ (ih h)
    · rw [List.dropWhile_cons, if_neg hc] at h
      exact h

/-- Membership survives dropping trailing whitespace backwards. -/
theorem mem_dropTrailingWs (c : Char) :
    ∀ l : Str, c ∈ dropTrailingWs l → c ∈ l := by
  intro l
  induction l with
  | nil => intro h; cases h
  | cons c₀ cs ih =>
    intro h
    simp only [dropTrailingWs] at h
    split_ifs at h
    · cases h
    · rcases List.mem_cons.mp h with rfl | h
      · exact List.mem_cons_self _ _
      · exact List.mem_cons_of_mem _ (ih h)

/-- Dropping trailing whitespace is empty or preserves the head. -/
theorem dropTrailingWs_head (l : Str) :
    dropTrailingWs l = [] ∨ (dropTrailingWs l).head? = l.head? := by
  cases l with
  | nil => exact Or.inl rfl
  | cons c cs =>
    simp only [dropTrailingWs]
    split_ifs
    · exact Or.inl rfl
    · exact Or.inr rfl

/-- Fact: `headNoWs` only depends on the head. -/
theorem headNoWs_congr {l₁ l₂ : Str} (h : l₁.head? = l₂.head?) :
    headNoWs l₁ = headNoWs l₂ := by
  unfold headNoWs
  rw [h]

/-- Dropping trailing whitespace preserves a non-whitespace head. -/
theorem headNoWs_dropTrailingWs (l : Str) (h : headNoWs l = true) :
    headNoWs (dropTrailingWs l) = true := by
  rcases dropTrailingWs_head l with he | he
  · rw [he]; rfl
  · rw [headNoWs_congr he]; exact h

/-- Dropping trailing whitespace preserves whitespace non-adjacency. -/
theorem noAdjWs_dropTrailingWs (l : Str) (h : noAdjWs l = true) :
    noAdjWs (dropTrailingWs l) = true := by
  induction l with
  | nil => rfl
  | cons c cs ih =>
    simp only [noAdjWs, Bool.and_eq_true] at h
    simp only [dropTrailingWs]
    split_ifs
    · rfl
    · simp only [noAdjWs, Bool.and_eq_true]
      refine ⟨?_, ih h.2⟩
      by_cases hc : pyIsSpace c = true
      · rw [if_pos hc]
        rcases dropTrailingWs_head cs with he | he
        · rw [he]; rfl
        · rw [headNoWs_congr he]
          rw [if_pos hc] at h
          exact h.1
      · rw [if_neg hc]

/-- Tail of `getLast?` of a two-or-more list. -/
theorem getLast?_cons_of_ne {c : Char} {l : Str} (h : l ≠ []) :
    (c :: l).getLast? = l.getLast? := by
  cases l with
  | nil => exact absurd rfl h
  | cons d ds => exact List.getLast?_cons_cons

/-- Dropping trailing whitespace leaves a non-whitespace last character. -/
theorem lastNoWs_dropTrailingWs (l : Str) : lastNoWs (dropTrailingWs l) = true := by
  induction l with
  | nil => rfl
  | cons c cs ih =>
    simp only [dropTrailingWs]
    split_ifs with hcond
    · rfl
    · by_cases hr : dropTrailingWs cs = []
      · rw [hr]
        have hc : pyIsSpace c = false := by
          rcases Bool.and_eq_false_iff.mp (Bool.eq_false_iff.mpr hcond) with h | h
          · exact absurd (by simp [hr]) (Bool.eq_false_iff.mp h)
          · exact h
        simp [lastNoWs, hc]
      · unfold lastNoWs
        rw [getLast?_cons_of_ne hr]
        exact ih

/-- A string of lowering-fixed characters is fixed by `pyLower`. -/
theorem map_toLower_id (l : Str) (h : ∀ c ∈ l, Char.toLower c = c) :
    pyLower l = l := by
  unfold pyLower
  induction l with
  | nil => rfl
  | cons c cs ih =>
    rw [List.map_cons, h c (List.mem_cons_self _ _),
      ih (fun c hc => h c (List.mem_cons_of_mem _ hc))]

/-- A string of kept characters is fixed by the punctuation
substitution. -/
theorem map_keep_id (l : Str) (h : ∀ c ∈ l, keepB c = true) :
    l.map (fun c => if keepB c then c else ' ') = l := by
  induction l with
  | nil => rfl
  | cons c cs ih =>
    rw [List.map_cons, if_pos (h c (List.mem_cons_self _ _)),
      ih (fun c hc => h c (List.mem_cons_of_mem _ hc))]

/-- A string whose whitespace is all `' '` and never adjacent is fixed
by run collapsing (in skipping mode, provided it does not start with
whitespace). -/
theorem wsRuns_id (l : Str) (hsp : ∀ c ∈ l, pyIsSpace c = true → c = ' ')
    (hadj : noAdjWs l = true) :
    wsRunsToAux ' ' false l = l ∧
      (headNoWs l = true → wsRunsToAux ' ' true l = l) := by
  induction l with
  | nil => exact ⟨rfl, fun _ => rfl⟩
  | cons c cs ih =>
    simp only [noAdjWs, Bool.and_eq_true] at hadj
    obtain ⟨ihF, ihT⟩ := ih (fun c hc => hsp c (List.mem_cons_of_mem _ hc)) hadj.2
    by_cases hc : pyIsSpace c = true
    · have hcsp : c = ' ' := hsp c (List.mem_cons_self _ _) hc
      have hhead : headNoWs cs = true := by
        have := hadj.1
        rwa [if_pos hc] at this
      constructor
      · have : wsRunsToAux ' ' false (c :: cs) = ' ' :: wsRunsToAux ' ' true cs := by
          simp [wsRunsToAux, hc]
        rw [this, ihT hhead, ← hcsp]
      · intro habs
        have : headNoWs (c :: cs) = !pyIsSpace c := rfl
        rw [this, hc] at habs
        cases habs
    · constructor
      · have : wsRunsToAux ' ' false (c :: cs) = c :: wsRunsToAux ' ' false cs := by
          simp [wsRunsToAux, hc]
        rw [this, ihF]
      · intro _
        have : wsRunsToAux ' ' true (c :: cs) = c :: wsRunsToAux ' ' false cs := by
          simp [wsRunsToAux, hc]
        rw [this, ihF]

/-- A string with a non-whitespace head is fixed by `dropWhile`. -/
theorem dropWhile_ws_id (l : Str) (h : headNoWs l = true) :
    l.dropWhile pyIsSpace = l := by
  cases l with
  | nil => rfl
  | cons c cs =>
    have hc : pyIsSpace c = false := by
      have : headNoWs (c :: cs) = !pyIsSpace c := rfl
      rw [this] at h
      simpa using h
    rw [List.dropWhile_cons, if_neg (by simp [hc])]

/-- A string with a non-whitespace last character is fixed by
`dropTrailingWs`. -/
theorem dropTrailingWs_id (l : Str) (h : lastNoWs l = true) :
    dropTrailingWs l = l := by
  induction l with
  | nil => rfl
  | cons c cs ih =>
    cases cs with
    | nil =>
      have hc : pyIsSpace c = false := by
        unfold lastNoWs at h
        simpa using h
      simp [dropTrailingWs, hc]
    | cons d ds =>
      have hlast : lastNoWs (d :: ds) = true := by
        unfold lastNoWs at h ⊢
        rwa [List.getLast?_cons_cons] at h
      have hr : dropTrailingWs (d :: ds) = d :: ds := ih hlast
      have step : dropTrailingWs (c :: d :: ds)
          = if decide (dropTrailingWs (d :: ds) = []) && pyIsSpace c then []
            else c :: dropTrailingWs (d :: ds) := rfl
      rw [step, hr]
      simp

/-- Every output of `preprocess_text` is fully normalized. -/
theorem preprocess_text_good (s : Str) : goodStr (preprocess_text s) := by
  by_cases hs : s = []
  · subst hs
    unfold goodStr
    exact ⟨fun c hc => absurd hc (List.not_mem_nil c), rfl, rfl, rfl⟩
  · have hdef : preprocess_text s
        = pyStrip (wsRunsTo ' ' ((pyLower s).map (fun c => if keepB c then c else ' '))) := by
      simp [preprocess_text, hs]
    rw [hdef]
    set t2 := (pyLower s).map (fun c => if keepB c then c else ' ') with ht2
    unfold goodStr
    refine ⟨?_, ?_, ?_, ?_⟩
    · intro c hc
      have hc3 : c ∈ wsRunsTo ' ' t2 :=
        mem_dropWhile_ws c _ (mem_dropTrailingWs c _ hc)
      have hws : pyIsSpace c = true → c = ' ' :=
        wsRunsToAux_ws_space t2 false c hc3
      rcases mem_wsRunsToAux ' ' t2 false c hc3 with rfl | hmem
      · exact ⟨by decide, by decide, fun _ => rfl⟩
      · obtain ⟨hlow, hkeep⟩ := t2_chars s c hmem
        exact ⟨hlow, hkeep, hws⟩
    · exact noAdjWs_dropTrailingWs _ (noAdjWs_dropWhile _ (wsRunsToAux_shape t2).2.2)
    · exact headNoWs_dropTrailingWs _ (headNoWs_dropWhile _)
    · exact lastNoWs_dropTrailingWs _

/-- Fully normalized strings are fixed points of `preprocess_text`. -/
theorem preprocess_text_id_of_good (l : Str) (h : goodStr l) :
    preprocess_text l = l := by
  by_cases hl : l = []
  · subst hl; rfl
  · obtain ⟨hchars, hadj, hhead, hlast⟩ := h
    have hdef : preprocess_text l
        = pyStrip (wsRunsTo ' ' ((pyLower l).map (fun c => if keepB c then c else ' '))) := by
      simp [preprocess_text, hl]
    rw [hdef, map_toLower_id l (fun c hc => (hchars c hc).1),
      map_keep_id l (fun c hc => (hchars c hc).2.1)]
    have h3 : wsRunsTo ' ' l = l :=
      (wsRuns_id l (fun c hc => (hchars c hc).2.2) hadj).1
    rw [h3]
    unfold pyStrip
    rw [dropWhile_ws_id l hhead, dropTrailingWs_id l hlast]

/-- C8: `preprocess_text("  Sequence-Alignment_Tool!! ")` equals
`"sequence-alignment_tool"` (lowercased, punctuation besides
hyphen/underscore replaced, whitespace collapsed and trimmed), and
`preprocess_text` is idempotent on every string. -/
theorem preprocess_text_spec :
    preprocess_text (("  Sequence-Alignment_Tool!! ").toList)
      = ("sequence-alignment_tool").toList ∧
    ∀ s : Str, preprocess_text (preprocess_text s) = preprocess_text s :=
  ⟨by decide, fun s => preprocess_text_id_of_good _ (preprocess_text_good s)⟩
